import Mathlib

/-!
Shallow embedding of the stockrhythm market-data / paper-trading gateway core,
with proofs about its universe manager, universe resolver, filter operators,
token store, paper fill store, instrument master, interval normalization and
mock market-data provider.

Python floats are modelled as rationals, Python ints as integers, Python
dicts as association lists (first binding wins on lookup, as dict keys are
unique by construction), Python sets as deduplicated lists, and wall-clock
reads as explicit time parameters.  Fallible Python code (raised exceptions)
is modelled with Option.
-/

set_option allowUnsafeReducibility true in
attribute [semireducible] Rat.add Rat.sub Rat.mul Rat.neg Rat.inv Rat.ofScientific

/-! ### Python string primitives (on lists of characters) -/

/-- Lexicographic comparison of character lists by code point; this is the
order Python's sorted() uses on strings. -/
def lexLeB : List Char → List Char → Bool
  | [], _ => true
  | _ :: _, [] => false
  | a :: as, b :: bs =>
    if a.toNat < b.toNat then true
    else if b.toNat < a.toNat then false
    else lexLeB as bs

/-- Order on strings induced by lexLeB. -/
def strLe (a b : String) : Prop := lexLeB a.data b.data = true

instance : DecidableRel strLe := fun a b => by unfold strLe; infer_instance

/-- Python sorted() on a list of strings. -/
def pySorted (l : List String) : List String := l.insertionSort strLe

/-- Leading-whitespace trim, the first half of Python str.strip(). -/
def trimLeftWs (l : List Char) : List Char := l.dropWhile Char.isWhitespace

/-- Trailing-whitespace trim, the second half of Python str.strip(). -/
def trimRightWs (l : List Char) : List Char :=
  (l.reverse.dropWhile Char.isWhitespace).reverse

/-- Python str.strip() on a character list: drop leading and trailing
whitespace. -/
def pyStripL (l : List Char) : List Char := trimRightWs (trimLeftWs l)

/-- Python str.lower() on a character list (ASCII letters, as in the inputs
this code receives). -/
def pyLowerL (l : List Char) : List Char := l.map Char.toLower

/-- Python str.upper() on a character list. -/
def pyUpperL (l : List Char) : List Char := l.map Char.toUpper

/-- Python str.isdigit() on a character list: nonempty and all digits. -/
def pyIsdigitL (l : List Char) : Bool := !l.isEmpty && l.all Char.isDigit

/-- Python str.endswith(c) for a single character. -/
def pyEndsWith (l : List Char) (c : Char) : Bool := l.getLast? = some c

/-- Python str.strip().lower(), the normalization applied by
_format_interval before matching suffixes. -/
def cleanL (s : List Char) : List Char := pyLowerL (pyStripL s)

/-- Python str.upper() on a String. -/
def pyUpper (s : String) : String := { data := pyUpperL s.data }

/-- Python str.lower() on a String. -/
def pyLower (s : String) : String := { data := pyLowerL s.data }

/-- Association-list lookup, the model of Python dict.get(k) (dict keys are
unique, so first-match lookup agrees with the dict). -/
def dictGet {α : Type} (m : List (String × α)) (k : String) : Option α :=
  match m with
  | [] => none
  | (k', v) :: rest => if k' = k then some v else dictGet rest k

/-- Association-list update, the model of Python dict assignment d[k] = v. -/
def dictSet {α : Type} (m : List (String × α)) (k : String) (v : α) : List (String × α) :=
  if m.any (fun p => decide (p.1 = k)) then
    m.map (fun p => if p.1 = k then (k, v) else p)
  else m ++ [(k, v)]

/-! ### UpstoxProvider._format_interval (providers/upstox.py)

The source function calls itself once, on the string
f"{multiplier}{unit[0]}"; that argument is nonempty (multiplier passed
isdigit()) and contains no "/" (multiplier is all digits, unit[0] comes from
the segment before the first "/"), so the recursive call always takes the
no-slash path, embedded here as formatSimpleL.  The final
`value in ("day","week","month")` branch and the final `return value` both
return value, so they collapse into one fallthrough. -/

/-- Model of the no-slash path of _format_interval: strip and lower-case,
then match the m/h/d suffix rules, else return the cleaned value. -/
def formatSimpleL (s : List Char) : List Char :=
  let value := cleanL s
  if pyEndsWith value 'm' && pyIsdigitL value.dropLast then value.dropLast ++ "minute".data
  else if pyEndsWith value 'h' && pyIsdigitL value.dropLast then value.dropLast ++ "hour".data
  else if pyEndsWith value 'd' && pyIsdigitL value.dropLast then
    (if value.dropLast = ['1'] then "day".data else value.dropLast ++ "day".data)
  else value

/-- Model of UpstoxProvider._format_interval on character lists.  Returns
none exactly when the Python code raises (IndexError on unit[0] with an
empty unit in a compound interval with a digit multiplier). -/
def formatIntervalL (interval : List Char) : Option (List Char) :=
  if interval = [] then some "1minute".data
  else if interval.contains '/' then
    let unit0 := interval.takeWhile (fun c => !(c = '/'))
    let multiplier0 := (interval.dropWhile (fun c => !(c = '/'))).drop 1
    let unit := pyLowerL (pyStripL unit0)
    let multiplier := pyStripL multiplier0
    if pyIsdigitL multiplier then
      match unit with
      | [] => none
      | u0 :: _ => some (formatSimpleL (multiplier ++ [u0]))
    else some interval
  else some (formatSimpleL interval)

/-- _format_interval on Strings; the Python None argument behaves like ""
(both are falsy and short-circuit to "1minute"). -/
def formatInterval (s : String) : Option String :=
  (formatIntervalL s.data).map fun l => { data := l }

/-! ### Filter operators and the universe resolver (universe_manager.py) -/

/-- FilterOp enum from stockrhythm.models. -/
inductive FilterOp where
  | EQ | NE | GT | GTE | LT | LTE | IN | NOT_IN | BETWEEN
deriving DecidableEq

/-- A Python value appearing as a filter condition target: a number, or a
list/tuple of numbers (for in / not_in / between). -/
inductive PyTarget where
  | num (q : ℚ)
  | list (xs : List ℚ)
deriving DecidableEq

/-- Model of _passes(value, op, target) for a numeric snapshot value.
Returns none where the Python code raises TypeError or ValueError
(ordering a number against a list, membership in a number, unpacking a
between target that is not a 2-sequence); eq/ne never raise in Python
(a number equals no list). -/
def pyPasses (value : ℚ) (op : FilterOp) (target : PyTarget) : Option Bool :=
  match op, target with
  | .EQ, .num q => some (decide (value = q))
  | .EQ, .list _ => some false
  | .NE, .num q => some (decide (¬ value = q))
  | .NE, .list _ => some true
  | .GT, .num q => some (decide (q < value))
  | .GT, .list _ => none
  | .GTE, .num q => some (decide (q ≤ value))
  | .GTE, .list _ => none
  | .LT, .num q => some (decide (value < q))
  | .LT, .list _ => none
  | .LTE, .num q => some (decide (value ≤ q))
  | .LTE, .list _ => none
  | .IN, .num _ => none
  | .IN, .list xs => some (decide (value ∈ xs))
  | .NOT_IN, .num _ => none
  | .NOT_IN, .list xs => some (decide (¬ value ∈ xs))
  | .BETWEEN, .list [lo, hi] => some (decide (lo ≤ value ∧ value ≤ hi))
  | .BETWEEN, _ => none

/-- FilterCondition from stockrhythm.models. -/
structure FilterCondition where
  field : String
  op : FilterOp
  value : PyTarget
deriving DecidableEq

/-- A provider snapshot row: field name to numeric value. -/
abbrev SnapRow := List (String × ℚ)

/-- A provider snapshot: symbol to row. -/
abbrev Snapshot := List (String × SnapRow)

/-- The inner condition loop of UniverseResolver.resolve for one symbol:
ok starts True and each condition may clear it (missing field or failing
_passes) with an early break.  none models a raised exception escaping
the loop. -/
def symbolPasses (row : SnapRow) : List FilterCondition → Option Bool
  | [] => some true
  | c :: cs =>
    match dictGet row c.field with
    | none => some false
    | some v =>
      match pyPasses v c.op c.value with
      | none => none
      | some false => some false
      | some true => symbolPasses row cs

/-- The selection loop of UniverseResolver.resolve: iterate base in order,
keeping the symbols whose row passes every condition.  The row defaults to
the empty dict via snap.get(sym, {}). -/
def selectSymbols (snap : Snapshot) (conds : List FilterCondition) :
    List String → Option (List String)
  | [] => some []
  | sym :: rest =>
    match symbolPasses ((dictGet snap sym).getD []) conds with
    | none => none
    | some true => (selectSymbols snap conds rest).map (fun sel => sym :: sel)
    | some false => selectSymbols snap conds rest

/-- Model of UniverseResolver.resolve given the already-expanded candidate
list.  snapResult is none when provider.snapshot raises NotImplementedError
(the NotSupported error), which resolve catches by returning the unfiltered
prefix. -/
def resolveWithSnapshot (conditions : List FilterCondition) (max_symbols : ℕ)
    (base : List String) (snapResult : Option Snapshot) : Option (List String) :=
  if conditions = [] then some (base.take max_symbols)
  else
    match snapResult with
    | none => some (base.take max_symbols)
    | some snap => (selectSymbols snap conditions base).map (fun sel => sel.take max_symbols)

/-! ### UniverseManager (universe_manager.py) and the configure handler
(main.py) -/

/-- UniverseUpdate from stockrhythm.models (timestamp omitted: no claim
mentions it). -/
structure UniverseUpdate where
  added : List String
  removed : List String
  «universe» : List String
  reason : String
deriving DecidableEq

/-- Manager state: the Python set self._current (kept as a deduplicated
list) plus the arguments of every provider.set_subscriptions call made so
far, in order. -/
structure ManagerState where
  current : List String
  subsCalls : List (List String)
deriving DecidableEq

/-- A freshly constructed UniverseManager: empty current set, no
subscription calls yet. -/
def managerInit : ManagerState := { current := [], subsCalls := [] }

/-- One iteration of UniverseManager.run given the list returned by
resolve: diff against current; when the delta is non-empty, replace
current, push sorted(current) to the provider, and emit the update. -/
def managerIteration (st : ManagerState) (newList : List String) :
    ManagerState × Option UniverseUpdate :=
  let newSet := newList.dedup
  let added := pySorted (newSet.filter (fun s => decide (¬ s ∈ st.current)))
  let removed := pySorted (st.current.filter (fun s => decide (¬ s ∈ newSet)))
  if added = [] ∧ removed = [] then (st, none)
  else
    ({ current := newSet, subsCalls := st.subsCalls ++ [pySorted newSet] },
     some { added := added, removed := removed, «universe» := pySorted newSet,
            reason := "filter_refresh" })

/-- UniverseManager.run over a finite schedule of resolve results,
collecting the emitted updates. -/
def managerRun (st : ManagerState) : List (List String) → ManagerState × List UniverseUpdate
  | [] => (st, [])
  | newList :: rest =>
    let step := managerIteration st newList
    let next := managerRun step.1 rest
    (next.1, step.2.toList ++ next.2)

/-- The synthetic UniverseUpdate the configure handler sends for a static
subscribe on protocol version 2 (main.py websocket_endpoint). -/
def staticSubscribeUpdate (symbols : List String) : UniverseUpdate :=
  { added := symbols, removed := [], «universe» := symbols, reason := "static_subscribe" }

/-- One configure action on a protocol-v2 session that emits universe
messages: either a filter configure that starts a fresh manager (observed
for a finite schedule of resolve results), or a static subscribe. -/
inductive SessionEvent where
  | configureFilter (resolves : List (List String))
  | configureSubscribe (symbols : List String)

/-- Universe updates one session event emits. A filter configure always
starts a manager whose current set is empty. -/
def eventUpdates : SessionEvent → List UniverseUpdate
  | .configureFilter resolves => (managerRun managerInit resolves).2
  | .configureSubscribe symbols => [staticSubscribeUpdate symbols]

/-- All UniverseUpdate messages a session emits, over a sequence of
configure actions processed in order. -/
def sessionUpdates (events : List SessionEvent) : List UniverseUpdate :=
  (events.map eventUpdates).flatten

/-- Per-update membership invariant: added symbols are in the universe,
removed symbols are not. -/
def updateMemOk (u : UniverseUpdate) : Prop :=
  (∀ s ∈ u.added, s ∈ u.«universe») ∧ (∀ s ∈ u.removed, ¬ s ∈ u.«universe»)

/-- Delta applicability of one update against the previous universe:
(prev ∪ added) minus removed reproduces this universe, as sets. -/
def updateDeltaOk (prev : Finset String) (u : UniverseUpdate) : Prop :=
  (prev ∪ u.added.toFinset) \ u.removed.toFinset = u.«universe».toFinset

/-- The chain property over a sequence of updates, starting from a given
previous universe (the empty set for the first update). -/
def chainFrom (prev : Finset String) : List UniverseUpdate → Prop
  | [] => True
  | u :: us => updateDeltaOk prev u ∧ chainFrom u.«universe».toFinset us

/-- Claim C1's property of an emitted update sequence. -/
def claimC1Property (updates : List UniverseUpdate) : Prop :=
  (∀ u ∈ updates, updateMemOk u) ∧ chainFrom ∅ updates

instance : DecidablePred updateMemOk := fun u => by unfold updateMemOk; infer_instance

instance : ∀ prev us, Decidable (chainFrom prev us) := fun prev us => by
  induction us generalizing prev with
  | nil => exact .isTrue trivial
  | cons u rest ih =>
    have : Decidable (updateDeltaOk prev u ∧ chainFrom u.«universe».toFinset rest) := by
      have := ih u.«universe».toFinset
      unfold updateDeltaOk
      infer_instance
    exact this

instance : DecidablePred claimC1Property := fun us => by
  unfold claimC1Property; infer_instance

/-! ### AuthStore (auth_store.py) -/

/-- The single row of the upstox_tokens table. -/
structure TokenRow where
  access_token : String
  refresh_token : Option String
  expires_at : ℤ
  created_at : ℤ
deriving DecidableEq

/-- AuthStore.save_upstox_token: overwrites the row (id = 1).  When
expires_at is not given, the lifetime is int(expires_in) if expires_in is
truthy (present and nonzero) else 24h.  now is the int(time.time()) read. -/
def save_upstox_token (row : Option TokenRow) (now : ℤ) (access_token : String)
    (expires_in : Option ℤ) (expires_at : Option ℤ) (refresh_token : Option String) :
    Option TokenRow :=
  let ea : ℤ :=
    match expires_at with
    | some e => e
    | none =>
      let lifetime : ℤ :=
        match expires_in with
        | some n => if ¬ n = 0 then n else 24 * 60 * 60
        | none => 24 * 60 * 60
      now + lifetime
  let _ := row
  some { access_token := access_token, refresh_token := refresh_token,
         expires_at := ea, created_at := now }

/-- AuthStore.get_valid_upstox_token: the stored token, unless absent or
expired (expires_at ≤ now). -/
def get_valid_upstox_token (row : Option TokenRow) (now : ℤ) : Option String :=
  match row with
  | none => none
  | some r => if r.expires_at ≤ now then none else some r.access_token

/-- Arguments of one save_upstox_token call (now is the time of the call). -/
structure SaveCall where
  now : ℤ
  access_token : String
  expires_in : Option ℤ
  expires_at : Option ℤ
  refresh_token : Option String

/-- Apply one save call to the store row. -/
def applySave (row : Option TokenRow) (c : SaveCall) : Option TokenRow :=
  save_upstox_token row c.now c.access_token c.expires_in c.expires_at c.refresh_token

/-- A sequence of save calls against one store. -/
def runSaves (row : Option TokenRow) (calls : List SaveCall) : Option TokenRow :=
  calls.foldl applySave row

/-! ### PaperEngine (paper_engine.py) -/

/-- Order from stockrhythm.models (side and type kept as their wire
strings). -/
structure Order where
  id : Option String
  symbol : String
  qty : ℤ
  side : String
  type : String
  limit_price : Option ℚ
deriving DecidableEq

/-- A row of the orders table. -/
structure OrderRow where
  id : ℕ
  symbol : String
  qty : ℤ
  side : String
  type : String
  limit_price : Option ℚ
  status : String
  timestamp : ℤ
deriving DecidableEq

/-- A row of the trades table. -/
structure TradeRow where
  id : ℕ
  order_id : ℕ
  symbol : String
  qty : ℤ
  price : ℚ
  timestamp : ℤ
deriving DecidableEq

/-- The SQLite state of one PaperEngine: both tables plus the
AUTOINCREMENT counters. -/
structure PaperEngineState where
  orders : List OrderRow
  trades : List TradeRow
  next_order_id : ℕ
  next_trade_id : ℕ
deriving DecidableEq

/-- A PaperEngine over a fresh database (AUTOINCREMENT starts at 1). -/
def paperInit : PaperEngineState :=
  { orders := [], trades := [], next_order_id := 1, next_trade_id := 1 }

/-- Python `order.limit_price or 0.0`: 0.0 when limit_price is None or
falsy (0.0). -/
def pyOrZero (p : Option ℚ) : ℚ :=
  match p with
  | some v => if ¬ v = 0 then v else 0
  | none => 0

/-- PaperEngine.execute_order: insert one order row (status FILLED), then
one trade row referencing it via cursor.lastrowid, and return the new
order id. -/
def execute_order (st : PaperEngineState) (o : Order) (now : ℤ) :
    PaperEngineState × ℕ :=
  let order_id := st.next_order_id
  let orow : OrderRow :=
    { id := order_id, symbol := o.symbol, qty := o.qty, side := o.side,
      type := o.type, limit_price := o.limit_price, status := "FILLED", timestamp := now }
  let trow : TradeRow :=
    { id := st.next_trade_id, order_id := order_id, symbol := o.symbol,
      qty := o.qty, price := pyOrZero o.limit_price, timestamp := now }
  ({ orders := st.orders ++ [orow], trades := st.trades ++ [trow],
     next_order_id := order_id + 1, next_trade_id := st.next_trade_id + 1 },
   order_id)

/-! ### InstrumentMaster (instrument_master.py) and
UniverseResolver.candidates (universe_manager.py) -/

/-- One row of the instruments CSV (the columns the loader reads). -/
structure InstrumentRow where
  symbol : String
  exchange : String
  nse_scrip_code : String
deriving DecidableEq

/-- InstrumentMaster.load over the parsed CSV rows, building the
symbol-to-canonical-token dict: key is the upper-cased symbol, value is
"{lowercased exchange}_cm|{nse_scrip_code}", and rows with an empty symbol
or token are skipped. -/
def loadSymbolMap : List InstrumentRow → List (String × String) → List (String × String)
  | [], m => m
  | r :: rs, m =>
    if ¬ r.symbol = "" ∧ ¬ r.nse_scrip_code = "" then
      loadSymbolMap rs (dictSet m (pyUpper r.symbol) (pyLower r.exchange ++ "_cm|" ++ r.nse_scrip_code))
    else loadSymbolMap rs m

/-- InstrumentMaster.resolve: dict lookup by the upper-cased symbol.  A
missing CSV file leaves the map empty, so every lookup misses. -/
def masterResolve (m : List (String × String)) (symbol : String) : Option String :=
  dictGet m (pyUpper symbol)

/-- The watchlist branch of UniverseResolver.candidates: map each raw
symbol through the master, falling back to the symbol itself when
unresolved. -/
def candidatesWatchlist (m : List (String × String)) : List String → List String
  | [] => []
  | sym :: rest =>
    (match masterResolve m sym with
     | some token => token
     | none => sym) :: candidatesWatchlist m rest

/-! ### MockProvider (providers/mock.py) -/

/-- Round-half-to-even on a rational, computed from the floor and the
doubled remainder (numerator arithmetic keeps the definition
kernel-reducible). -/
def rhe (q : ℚ) : ℤ :=
  let f := q.floor
  let r2 : ℤ := 2 * (q.num - f * (q.den : ℤ))
  if r2 < (q.den : ℤ) then f
  else if (q.den : ℤ) < r2 then f + 1
  else if f % 2 = 0 then f else f + 1

/-- Python round(x, 4): round half to even at 4 decimal places. -/
def pyRound4 (q : ℚ) : ℚ := Rat.divInt (rhe (q * 10000)) 10000

/-- Python max(a, b) (returns the first argument on ties). -/
def pyMax (a b : ℚ) : ℚ := if a < b then b else a

/-- Python min(a, b) (returns the first argument on ties). -/
def pyMin (a b : ℚ) : ℚ := if b < a then b else a

/-- MockProvider constructor parameters (interval_seconds and the seed are
handled separately: time is explicit and the seed initializes the RNG). -/
structure MockParams where
  base_price : ℚ
  max_deviation : ℚ
  volatility : ℚ
  mean_reversion : ℚ
  volume_min : ℤ
  volume_max : ℤ
deriving DecidableEq

/-- Tick from stockrhythm.models. -/
structure Tick where
  symbol : String
  price : ℚ
  volume : ℤ
  timestamp : ℤ
  provider : String
deriving DecidableEq

/-- A deterministic pseudo-random number generator interface: what the
code uses of random.Random.  init models random.Random(seed); uniform and
randint consume the generator state and return the next one. -/
structure RNGImpl (R : Type) where
  init : ℤ → R
  uniform : R → ℚ → ℚ → ℚ × R
  randint : R → ℤ → ℤ → ℤ × R

/-- MockProvider instance state after construction / subscribe calls. -/
structure MockProviderState (R : Type) where
  params : MockParams
  rng : R
  subscriptions : List String
  prices : List (String × ℚ)

/-- MockProvider.__init__ with an explicit symbols list: every price starts
at base_price. -/
def mockInit {R : Type} (impl : RNGImpl R) (params : MockParams) (seed : ℤ)
    (symbols : List String) : MockProviderState R :=
  { params := params, rng := impl.init seed, subscriptions := symbols,
    prices := symbols.map (fun s => (s, params.base_price)) }

/-- In-flight stream state: ticks emitted so far (indexes the clock), the
price dict and the RNG state. -/
structure MockRunState (R : Type) where
  count : ℕ
  prices : List (String × ℚ)
  rng : R

/-- The body of MockProvider.stream for one symbol: draw the step, apply
mean reversion, clamp into [base-dev, base+dev], store the clamped price,
draw the volume, and emit the tick with the price rounded to 4 places. -/
def mockTickFor {R : Type} (impl : RNGImpl R) (params : MockParams) (sym : String)
    (ts : ℤ) (st : MockRunState R) : Tick × MockRunState R :=
  let current := (dictGet st.prices sym).getD params.base_price
  let stepDraw := impl.uniform st.rng (-params.volatility) params.volatility
  let reversion := (params.base_price - current) * params.mean_reversion
  let next0 := current + stepDraw.1 + reversion
  let lo := params.base_price - params.max_deviation
  let hi := params.base_price + params.max_deviation
  let next := pyMax lo (pyMin hi next0)
  let volDraw := impl.randint stepDraw.2 params.volume_min params.volume_max
  ({ symbol := sym, price := pyRound4 next, volume := volDraw.1, timestamp := ts,
     provider := "mock" },
   { count := st.count + 1, prices := dictSet st.prices sym next, rng := volDraw.2 })

/-- Emit one tick per symbol of the given list, in order, threading the
stream state; the clock gives each tick its datetime.now() reading. -/
def mockEmitSyms {R : Type} (impl : RNGImpl R) (params : MockParams) (clock : ℕ → ℤ) :
    List String → MockRunState R → List Tick × MockRunState R
  | [], st => ([], st)
  | sym :: rest, st =>
    let step := mockTickFor impl params sym (clock st.count) st
    let next := mockEmitSyms impl params clock rest step.2
    (step.1 :: next.1, next.2)

/-- MockProvider.stream over k intervals: each interval visits
sorted(subscriptions) once. -/
def mockIntervals {R : Type} (impl : RNGImpl R) (params : MockParams) (clock : ℕ → ℤ)
    (subs : List String) : ℕ → MockRunState R → List (List Tick) × MockRunState R
  | 0, st => ([], st)
  | k + 1, st =>
    let step := mockEmitSyms impl params clock (pySorted subs) st
    let next := mockIntervals impl params clock subs k step.2
    (step.1 :: next.1, next.2)

/-- The tick sequence (grouped by interval) a mock provider produces over k
intervals under a given clock. -/
def mockStream {R : Type} (impl : RNGImpl R) (st : MockProviderState R) (clock : ℕ → ℤ)
    (k : ℕ) : List (List Tick) :=
  (mockIntervals impl st.params clock st.subscriptions k
    { count := 0, prices := st.prices, rng := st.rng }).1

/-- A concrete RNG implementation used to instantiate theorems: uniform
returns the upper bound, randint the lower bound. -/
def cexRNG : RNGImpl Unit :=
  { init := fun _ => (), uniform := fun _ _ b => (b, ()), randint := fun _ a _ => (a, ()) }

/-- Mock parameters exhibiting the rounding overshoot: the deviation bound
100 + 3/50000 is not a multiple of 1/10000. -/
def cexParams : MockParams :=
  { base_price := 100, max_deviation := mkRat 3 50000, volatility := 1,
    mean_reversion := 0, volume_min := 1, volume_max := 1 }

/-! ## Helper lemmas -/

theorem pySorted_mem {l : List String} {s : String} : s ∈ pySorted l ↔ s ∈ l := by
  unfold pySorted
  exact List.mem_insertionSort strLe

theorem pySorted_toFinset (l : List String) : (pySorted l).toFinset = l.toFinset := by
  ext s
  simp [pySorted, List.mem_toFinset, List.mem_insertionSort]

theorem pyOrZero_eq_getD (p : Option ℚ) : pyOrZero p = p.getD 0 := by
  cases p with
  | none => rfl
  | some v =>
    by_cases hv : v = 0
    · simp [pyOrZero, hv]
    · simp [pyOrZero, hv]

theorem managerIteration_none_eq {st : ManagerState} {newList : List String}
    (h : (managerIteration st newList).2 = none) : managerIteration st newList = (st, none) := by
  simp only [managerIteration] at h ⊢
  split at h
  · next hc => rw [if_pos hc]
  · simp at h

/-! ## C4 -/

/-- C4: UniverseResolver.resolve returns the candidate prefix base[:max_symbols]
whenever the condition list is empty (for every snapshot outcome, so the
snapshot is never consulted), and likewise when provider.snapshot raises
NotSupported (NotImplementedError, modelled as snapResult = none). -/
theorem resolve_empty_conditions_or_not_supported :
    (∀ (max_symbols : ℕ) (base : List String) (snapResult : Option Snapshot),
      resolveWithSnapshot [] max_symbols base snapResult = some (base.take max_symbols)) ∧
    (∀ (conditions : List FilterCondition) (max_symbols : ℕ) (base : List String),
      resolveWithSnapshot conditions max_symbols base none = some (base.take max_symbols)) := by
  constructor
  · intro m b s
    rfl
  · intro c m b
    cases c with
    | nil => rfl
    | cons hd tl => rfl

/-! ## C7 -/

/-- C7: execute_order appends exactly one orders row (the order's fields,
status FILLED, the call's timestamp) and exactly one trades row referencing
the new order id, with price limit_price-or-0; it returns the new order id,
and ids from successive calls on one store strictly increase. -/
theorem execute_order_rows_and_increasing_ids :
    ∀ (st : PaperEngineState) (o : Order) (now : ℤ),
      (execute_order st o now).1.orders =
        st.orders ++ [{ id := (execute_order st o now).2, symbol := o.symbol, qty := o.qty,
                        side := o.side, type := o.type, limit_price := o.limit_price,
                        status := "FILLED", timestamp := now }] ∧
      (execute_order st o now).1.trades =
        st.trades ++ [{ id := st.next_trade_id, order_id := (execute_order st o now).2,
                        symbol := o.symbol, qty := o.qty,
                        price := o.limit_price.getD 0, timestamp := now }] ∧
      (execute_order st o now).2 = st.next_order_id ∧
      (∀ (o2 : Order) (now2 : ℤ),
        (execute_order st o now).2 < (execute_order (execute_order st o now).1 o2 now2).2) := by
  intro st o now
  refine ⟨rfl, ?_, rfl, ?_⟩
  · simp only [execute_order, pyOrZero_eq_getD]
  · intro o2 now2
    simp [execute_order]

/-! ## C5 -/

/-- C5 counterexample: save_upstox_token with expires_in = 0 (and no
explicit expires_at) does not record expires_at = now + 0: Python's
`if expires_in` treats 0 as absent and falls back to the 24h default. -/
theorem save_token_expires_in_zero_counterexample :
    (save_upstox_token none 1000 "t" (some 0) none none).map TokenRow.expires_at = some 87400 ∧
    ¬ ((save_upstox_token none 1000 "t" (some 0) none none).map TokenRow.expires_at
        = some (1000 + 0)) := by decide

/-- C5 (amended): save with expires_in = N records expires_at = now + N for
N ≠ 0 (expires_in = 0, like an absent expires_in, falls back to now + 24h);
an explicit expires_at wins; and get_valid_upstox_token returns the most
recently saved token exactly when its recorded expires_at is strictly
greater than the current time, and nothing when no token was saved. -/
theorem token_store_save_get_spec :
    (∀ (row : Option TokenRow) (now N : ℤ) (tok : String) (rt : Option String), ¬ N = 0 →
      (save_upstox_token row now tok (some N) none rt).map TokenRow.expires_at = some (now + N)) ∧
    (∀ (row : Option TokenRow) (now : ℤ) (tok : String) (rt : Option String),
      (save_upstox_token row now tok none none rt).map TokenRow.expires_at = some (now + 86400)) ∧
    (∀ (row : Option TokenRow) (now : ℤ) (tok : String) (rt : Option String),
      (save_upstox_token row now tok (some 0) none rt).map TokenRow.expires_at = some (now + 86400)) ∧
    (∀ (row : Option TokenRow) (now e : ℤ) (tok : String) (ei : Option ℤ) (rt : Option String),
      (save_upstox_token row now tok ei (some e) rt).map TokenRow.expires_at = some e) ∧
    (∀ (r : TokenRow) (now : ℤ),
      get_valid_upstox_token (some r) now =
        if now < r.expires_at then some r.access_token else none) ∧
    (∀ now : ℤ, get_valid_upstox_token none now = none) ∧
    (∀ (row : Option TokenRow) (calls : List SaveCall) (c : SaveCall),
      runSaves row (calls ++ [c]) = applySave (runSaves row calls) c) ∧
    (∀ (row : Option TokenRow) (c : SaveCall),
      ∃ r, applySave row c = some r ∧ r.access_token = c.access_token) := by
  refine ⟨?_, ?_, ?_, ?_, ?_, ?_, ?_, ?_⟩
  · intro row now N tok rt hN
    simp [save_upstox_token, hN]
  · intro row now tok rt
    simp [save_upstox_token]
  · intro row now tok rt
    simp [save_upstox_token]
  · intro row now e tok ei rt
    simp [save_upstox_token]
  · intro r now
    show (if r.expires_at ≤ now then none else some r.access_token) = _
    by_cases h : r.expires_at ≤ now
    · rw [if_pos h, if_neg (by omega)]
    · rw [if_neg h, if_pos (by omega)]
  · intro now
    rfl
  · intro row calls c
    simp [runSaves, List.foldl_append]
  · intro row c
    exact ⟨_, rfl, rfl⟩

/-- Witness for C5 (amended), at now = 1000, expires_in = 60. -/
theorem token_store_save_get_spec_witness :
    (save_upstox_token none 1000 "t" (some 60) none none).map TokenRow.expires_at
      = some (1000 + 60) :=
  token_store_save_get_spec.1 none 1000 60 "t" none (by decide)

/-! ## C2 -/

/-- C2: when an iteration of UniverseManager.run emits an update, the
symbol list passed to provider.set_subscriptions is exactly the update's
universe field, which lists the new current set; when resolve returns the
same set as current, the iteration neither calls set_subscriptions nor
emits an update and leaves the state unchanged. -/
theorem manager_subscriptions_match_universe :
    ∀ (st : ManagerState) (newList : List String),
      (∀ u, (managerIteration st newList).2 = some u →
        (managerIteration st newList).1.subsCalls = st.subsCalls ++ [u.«universe»] ∧
        (managerIteration st newList).1.current.toFinset = u.«universe».toFinset) ∧
      (newList.toFinset = st.current.toFinset → managerIteration st newList = (st, none)) := by
  intro st newList
  constructor
  · intro u hu
    simp only [managerIteration] at hu ⊢
    split at hu
    · simp at hu
    · next hc =>
      rw [if_neg hc]
      cases hu
      refine ⟨rfl, ?_⟩
      rw [pySorted_toFinset]
  · intro hset
    have hmem : ∀ s, s ∈ newList ↔ s ∈ st.current := by
      intro s
      rw [← List.mem_toFinset, hset, List.mem_toFinset]
    have hadd : newList.dedup.filter (fun s => decide (¬ s ∈ st.current)) = [] := by
      rw [List.filter_eq_nil_iff]
      intro a ha
      simp only [decide_not, Bool.not_eq_true', decide_eq_false_iff_not, not_not]
      exact (hmem a).mp (List.mem_dedup.mp ha)
    have hrem : st.current.filter (fun s => decide (¬ s ∈ newList.dedup)) = [] := by
      rw [List.filter_eq_nil_iff]
      intro a ha
      simp only [decide_not, Bool.not_eq_true', decide_eq_false_iff_not, not_not]
      exact List.mem_dedup.mpr ((hmem a).mpr ha)
    simp only [managerIteration]
    rw [hadd, hrem]
    rfl

/-- Witness for C2 at a first iteration resolving to ["B", "A"]. -/
theorem manager_subscriptions_match_universe_witness :
    ((managerIteration managerInit ["B", "A"]).1.subsCalls = [] ++ [["A", "B"]] ∧
      (managerIteration managerInit ["B", "A"]).1.current.toFinset =
        (["A", "B"] : List String).toFinset) ∧
    managerIteration { current := ["A"], subsCalls := [] } ["A"] =
      ({ current := ["A"], subsCalls := [] }, none) :=
  ⟨(manager_subscriptions_match_universe managerInit ["B", "A"]).1
      { added := ["A", "B"], removed := [], «universe» := ["A", "B"], reason := "filter_refresh" }
      (by decide),
   (manager_subscriptions_match_universe { current := ["A"], subsCalls := [] } ["A"]).2 (by decide)⟩

/-! ## C1 -/

theorem managerIteration_emit {st : ManagerState} {newList : List String} {u : UniverseUpdate}
    (h : (managerIteration st newList).2 = some u) :
    u.added = pySorted (newList.dedup.filter (fun s => decide (¬ s ∈ st.current))) ∧
    u.removed = pySorted (st.current.filter (fun s => decide (¬ s ∈ newList.dedup))) ∧
    u.«universe» = pySorted newList.dedup ∧
    (managerIteration st newList).1.current = newList.dedup := by
  simp only [managerIteration] at h ⊢
  split at h
  · simp at h
  · next hc =>
    rw [if_neg hc]
    cases h
    exact ⟨rfl, rfl, rfl, rfl⟩

theorem managerIteration_memOk {st : ManagerState} {newList : List String} {u : UniverseUpdate}
    (h : (managerIteration st newList).2 = some u) : updateMemOk u := by
  obtain ⟨ha, hr, hu, -⟩ := managerIteration_emit h
  constructor
  · intro s hs
    rw [ha, pySorted_mem, List.mem_filter] at hs
    rw [hu, pySorted_mem]
    exact hs.1
  · intro s hs
    rw [hr, pySorted_mem, List.mem_filter] at hs
    rw [hu, pySorted_mem]
    simpa using hs.2

theorem managerIteration_deltaOk {st : ManagerState} {newList : List String} {u : UniverseUpdate}
    (h : (managerIteration st newList).2 = some u) :
    updateDeltaOk st.current.toFinset u := by
  obtain ⟨ha, hr, hu, -⟩ := managerIteration_emit h
  unfold updateDeltaOk
  rw [ha, hr, hu, pySorted_toFinset, pySorted_toFinset, pySorted_toFinset]
  ext x
  simp only [Finset.mem_sdiff, Finset.mem_union, List.mem_toFinset, List.mem_filter,
    List.mem_dedup, decide_eq_true_eq]
  by_cases hx1 : x ∈ newList <;> by_cases hx2 : x ∈ st.current <;> simp [hx1, hx2]

theorem managerRun_chain : ∀ (resolves : List (List String)) (st : ManagerState),
    chainFrom st.current.toFinset (managerRun st resolves).2 := by
  intro resolves
  induction resolves with
  | nil => intro st; trivial
  | cons nl rest ih =>
    intro st
    show chainFrom st.current.toFinset
      ((managerIteration st nl).2.toList ++ (managerRun (managerIteration st nl).1 rest).2)
    cases h : (managerIteration st nl).2 with
    | none =>
      have hst : (managerIteration st nl).1 = st := by
        rw [managerIteration_none_eq h]
      rw [hst]
      simpa using ih st
    | some u =>
      show chainFrom st.current.toFinset
        (u :: (managerRun (managerIteration st nl).1 rest).2)
      refine ⟨managerIteration_deltaOk h, ?_⟩
      have hcur : u.«universe».toFinset = (managerIteration st nl).1.current.toFinset := by
        obtain ⟨-, -, hu, hc⟩ := managerIteration_emit h
        rw [hu, hc, pySorted_toFinset]
      rw [hcur]
      exact ih (managerIteration st nl).1

theorem managerRun_memOk : ∀ (resolves : List (List String)) (st : ManagerState)
    (u : UniverseUpdate), u ∈ (managerRun st resolves).2 → updateMemOk u := by
  intro resolves
  induction resolves with
  | nil => intro st u h; simp [managerRun] at h
  | cons nl rest ih =>
    intro st u h
    have h' : u ∈ (managerIteration st nl).2.toList ++ (managerRun (managerIteration st nl).1 rest).2 := h
    rw [List.mem_append] at h'
    cases h' with
    | inl hl =>
      cases he : (managerIteration st nl).2 with
      | none => rw [he] at hl; simp at hl
      | some v =>
        rw [he] at hl
        simp at hl
        exact hl ▸ managerIteration_memOk he
    | inr hr => exact ih _ u hr

/-- C1 counterexample: a protocol-v2 session that first receives a static
subscribe for ["X"] and then a filter configure whose manager resolves to
["Y"] emits the sequence
universe=["X"] (static_subscribe) then added=["Y"], removed=[],
universe=["Y"] (filter_refresh); applying the second update's deltas to
{"X"} yields {"X","Y"}, not {"Y"}, because a fresh manager always starts
from the empty set and never removes the statically subscribed symbols. -/
theorem universe_updates_chain_counterexample :
    ¬ claimC1Property (sessionUpdates
      [SessionEvent.configureSubscribe ["X"], SessionEvent.configureFilter [["Y"]]]) := by
  decide

/-- C1 (amended): every UniverseUpdate emitted on a session (by the manager
loop or by the static-subscribe configure handler) satisfies the membership
invariant (added symbols are in universe, removed symbols are not); and the
added/removed delta chain starting from the empty set reproduces every
universe for the updates emitted by one universe manager run.  The chain
property does not extend across reconfigurations (static subscribes or a
replaced manager), as the counterexample shows. -/
theorem universe_updates_mem_and_single_manager_chain :
    (∀ (events : List SessionEvent), ∀ u ∈ sessionUpdates events, updateMemOk u) ∧
    (∀ resolves : List (List String), chainFrom ∅ (managerRun managerInit resolves).2) := by
  constructor
  · intro events u hu
    unfold sessionUpdates at hu
    rw [List.mem_flatten] at hu
    obtain ⟨l, hl, hul⟩ := hu
    rw [List.mem_map] at hl
    obtain ⟨ev, -, hev⟩ := hl
    cases ev with
    | configureFilter resolves =>
      rw [← hev] at hul
      exact managerRun_memOk resolves managerInit u hul
    | configureSubscribe symbols =>
      rw [← hev] at hul
      simp only [eventUpdates, List.mem_singleton] at hul
      subst hul
      constructor
      · intro s hs; exact hs
      · intro s hs; simp [staticSubscribeUpdate] at hs
  · intro resolves
    have h := managerRun_chain resolves managerInit
    simpa [managerInit] using h

/-- Witness for C1 (amended): the static-subscribe update for ["X"], and a
manager run resolving to ["Y"]. -/
theorem universe_updates_mem_and_single_manager_chain_witness :
    updateMemOk (staticSubscribeUpdate ["X"]) ∧
    chainFrom ∅ (managerRun managerInit [["Y"]]).2 :=
  ⟨universe_updates_mem_and_single_manager_chain.1
      [SessionEvent.configureSubscribe ["X"]] (staticSubscribeUpdate ["X"]) (by decide),
   universe_updates_mem_and_single_manager_chain.2 [["Y"]]⟩

/-! ## C3 -/

theorem symbolPasses_true_iff (row : SnapRow) (conds : List FilterCondition) :
    symbolPasses row conds = some true ↔
      ∀ c ∈ conds, ∃ v, dictGet row c.field = some v ∧ pyPasses v c.op c.value = some true := by
  induction conds with
  | nil => simp [symbolPasses]
  | cons c cs ih =>
    simp only [symbolPasses, List.forall_mem_cons]
    cases hv : dictGet row c.field with
    | none => simp [hv]
    | some v =>
      cases hp : pyPasses v c.op c.value with
      | none => simp [hv, hp]
      | some b =>
        cases b with
        | false => simp [hv, hp]
        | true => simp [hv, hp, ih]

theorem selectSymbols_mem (snap : Snapshot) (conds : List FilterCondition) :
    ∀ (base sel : List String), selectSymbols snap conds base = some sel →
      ∀ sym, (sym ∈ sel ↔ sym ∈ base ∧
        symbolPasses ((dictGet snap sym).getD []) conds = some true) := by
  intro base
  induction base with
  | nil =>
    intro sel h sym
    simp only [selectSymbols] at h
    cases h
    simp
  | cons s rest ih =>
    intro sel h sym
    simp only [selectSymbols] at h
    cases hp : symbolPasses ((dictGet snap s).getD []) conds with
    | none => rw [hp] at h; simp at h
    | some b =>
      rw [hp] at h
      cases b with
      | false =>
        have hiff := ih sel h sym
        rw [hiff]
        constructor
        · intro ⟨h1, h2⟩; exact ⟨List.mem_cons_of_mem s h1, h2⟩
        · intro ⟨h1, h2⟩
          rcases List.mem_cons.mp h1 with heq | hmem
          · subst heq; rw [hp] at h2; simp at h2
          · exact ⟨hmem, h2⟩
      | true =>
        cases hsel : selectSymbols snap conds rest with
        | none => rw [hsel] at h; simp at h
        | some sel' =>
          rw [hsel] at h
          have h' : s :: sel' = sel := Option.some.inj h
          subst h'
          have hiff := ih sel' hsel sym
          by_cases hss : sym = s
          · subst hss
            constructor
            · intro _
              exact ⟨List.mem_cons_self sym rest, hp⟩
            · intro _
              exact List.mem_cons_self sym sel'
          · simp only [List.mem_cons]
            constructor
            · intro hin
              rcases hin with heq | hin
              · exact absurd heq hss
              · have := hiff.mp hin
                exact ⟨Or.inr this.1, this.2⟩
            · intro ⟨h1, h2⟩
              rcases h1 with heq | hmem
              · exact absurd heq hss
              · exact Or.inr (hiff.mpr ⟨hmem, h2⟩)

/-- C3: every filter operator is total and matches its intended semantics
on a correctly-typed target (numeric for orderings and equality, a list for
membership, a 2-element [lo, hi] for between, inclusive on both ends); and
the resolve selection loop keeps a candidate exactly when, for every
condition, the snapshot row has the named field and _passes holds for it
(a missing field fails the symbol). -/
theorem passes_semantics_and_selection :
    (∀ (v q : ℚ), pyPasses v .EQ (.num q) = some (decide (v = q))) ∧
    (∀ (v q : ℚ), pyPasses v .NE (.num q) = some (decide (¬ v = q))) ∧
    (∀ (v q : ℚ), pyPasses v .GT (.num q) = some (decide (v > q))) ∧
    (∀ (v q : ℚ), pyPasses v .GTE (.num q) = some (decide (v ≥ q))) ∧
    (∀ (v q : ℚ), pyPasses v .LT (.num q) = some (decide (v < q))) ∧
    (∀ (v q : ℚ), pyPasses v .LTE (.num q) = some (decide (v ≤ q))) ∧
    (∀ (v : ℚ) (xs : List ℚ), pyPasses v .IN (.list xs) = some (decide (v ∈ xs))) ∧
    (∀ (v : ℚ) (xs : List ℚ), pyPasses v .NOT_IN (.list xs) = some (decide (¬ v ∈ xs))) ∧
    (∀ (v lo hi : ℚ), pyPasses v .BETWEEN (.list [lo, hi]) = some (decide (lo ≤ v ∧ v ≤ hi))) ∧
    (∀ (snap : Snapshot) (conds : List FilterCondition) (base sel : List String),
      selectSymbols snap conds base = some sel →
      ∀ sym, (sym ∈ sel ↔ sym ∈ base ∧
        ∀ c ∈ conds, ∃ v, dictGet ((dictGet snap sym).getD []) c.field = some v ∧
          pyPasses v c.op c.value = some true)) := by
  refine ⟨fun v q => rfl, fun v q => rfl, fun v q => rfl, fun v q => rfl, fun v q => rfl,
    fun v q => rfl, fun v xs => rfl, fun v xs => rfl, fun v lo hi => rfl, ?_⟩
  intro snap conds base sel h sym
  rw [selectSymbols_mem snap conds base sel h sym, symbolPasses_true_iff]

/-- Witness for C3 at snapshot {A: {last_price: 5}}, condition
last_price > 1, base [A, B]: A is selected, B (missing row field) is not. -/
theorem passes_semantics_and_selection_witness :
    ("A" ∈ ["A"] ↔ "A" ∈ ["A", "B"] ∧
      ∀ c ∈ [FilterCondition.mk "last_price" .GT (.num 1)],
        ∃ v, dictGet ((dictGet [("A", [("last_price", (5 : ℚ))])] "A").getD []) c.field = some v ∧
          pyPasses v c.op c.value = some true) :=
  passes_semantics_and_selection.2.2.2.2.2.2.2.2.2
    [("A", [("last_price", (5 : ℚ))])] [FilterCondition.mk "last_price" .GT (.num 1)]
    ["A", "B"] ["A"] (by decide) "A"

/-! ## C8 -/

theorem dictGet_map_ne {α : Type} (m : List (String × α)) (k k' : String) (v : α)
    (hkk : ¬ k = k') :
    dictGet (m.map (fun p => if p.1 = k then (k, v) else p)) k' = dictGet m k' := by
  induction m with
  | nil => rfl
  | cons p rest ih =>
    obtain ⟨k1, v1⟩ := p
    rw [List.map_cons]
    dsimp only
    by_cases h1 : k1 = k
    · rw [if_pos h1]
      show (if k = k' then some v else _) = (if k1 = k' then some v1 else dictGet rest k')
      rw [if_neg hkk, if_neg (h1 ▸ hkk), ih]
    · rw [if_neg h1]
      show (if k1 = k' then some v1 else _) = (if k1 = k' then some v1 else dictGet rest k')
      by_cases h2 : k1 = k'
      · rw [if_pos h2, if_pos h2]
      · rw [if_neg h2, if_neg h2, ih]

theorem dictGet_map_self {α : Type} (m : List (String × α)) (k : String) (v : α)
    (hany : m.any (fun p => decide (p.1 = k)) = true) :
    dictGet (m.map (fun p => if p.1 = k then (k, v) else p)) k = some v := by
  induction m with
  | nil => simp at hany
  | cons p rest ih =>
    obtain ⟨k1, v1⟩ := p
    rw [List.map_cons]
    dsimp only
    by_cases h1 : k1 = k
    · rw [if_pos h1]
      show (if k = k then some v else _) = some v
      rw [if_pos rfl]
    · have hrest : rest.any (fun p => decide (p.1 = k)) = true := by
        simp only [List.any_cons, Bool.or_eq_true] at hany
        rcases hany with h | h
        · exact absurd (of_decide_eq_true h) h1
        · exact h
      rw [if_neg h1]
      show (if k1 = k then some v1 else _) = some v
      rw [if_neg h1]
      exact ih hrest

theorem dictGet_append {α : Type} (m l : List (String × α)) (k : String) :
    dictGet (m ++ l) k =
      match dictGet m k with
      | some r => some r
      | none => dictGet l k := by
  induction m with
  | nil => rfl
  | cons p rest ih =>
    obtain ⟨k1, v1⟩ := p
    rw [List.cons_append]
    show (if k1 = k then some v1 else dictGet (rest ++ l) k) = _
    by_cases h1 : k1 = k
    · rw [if_pos h1]
      show _ = (match (if k1 = k then some v1 else dictGet rest k) with
        | some r => some r | none => dictGet l k)
      rw [if_pos h1]
    · rw [if_neg h1]
      show _ = (match (if k1 = k then some v1 else dictGet rest k) with
        | some r => some r | none => dictGet l k)
      rw [if_neg h1, ih]

theorem dictGet_none_of_not_any {α : Type} (m : List (String × α)) (k : String)
    (hany : m.any (fun p => decide (p.1 = k)) = false) : dictGet m k = none := by
  induction m with
  | nil => rfl
  | cons p rest ih =>
    obtain ⟨k1, v1⟩ := p
    simp only [List.any_cons, Bool.or_eq_false_iff] at hany
    have h1 : ¬ k1 = k := of_decide_eq_false hany.1
    show (if k1 = k then some v1 else dictGet rest k) = none
    rw [if_neg h1]
    exact ih hany.2

theorem dictGet_dictSet {α : Type} (m : List (String × α)) (k k' : String) (v : α) :
    dictGet (dictSet m k v) k' = if k = k' then some v else dictGet m k' := by
  unfold dictSet
  cases hany : m.any (fun p => decide (p.1 = k)) with
  | true =>
    rw [if_pos rfl]
    by_cases hkk : k = k'
    · subst hkk
      rw [if_pos rfl, dictGet_map_self m k v hany]
    · rw [if_neg hkk, dictGet_map_ne m k k' v hkk]
  | false =>
    rw [if_neg (by simp), dictGet_append]
    by_cases hkk : k = k'
    · subst hkk
      rw [dictGet_none_of_not_any m k hany]
      simp [dictGet]
    · cases hm : dictGet m k' with
      | some r => simp [hm, hkk]
      | none => simp [hm, hkk, dictGet]

theorem loadSymbolMap_provenance :
    ∀ (rows : List InstrumentRow) (m : List (String × String)) (sym tok : String),
      dictGet (loadSymbolMap rows m) sym = some tok →
      dictGet m sym = some tok ∨
        ∃ r ∈ rows, pyUpper r.symbol = sym ∧
          tok = pyLower r.exchange ++ "_cm|" ++ r.nse_scrip_code := by
  intro rows
  induction rows with
  | nil =>
    intro m sym tok h
    exact Or.inl h
  | cons r rs ih =>
    intro m sym tok h
    unfold loadSymbolMap at h
    split at h
    · rcases ih _ sym tok h with hl | ⟨r', hr', h1, h2⟩
      · rw [dictGet_dictSet] at hl
        split at hl
        · next heq =>
          exact Or.inr ⟨r, List.mem_cons_self r rs, heq, (Option.some.inj hl).symm⟩
        · exact Or.inl hl
      · exact Or.inr ⟨r', List.mem_cons_of_mem r hr', h1, h2⟩
    · rcases ih _ sym tok h with hl | ⟨r', hr', h1, h2⟩
      · exact Or.inl hl
      · exact Or.inr ⟨r', List.mem_cons_of_mem r hr', h1, h2⟩

theorem candidatesWatchlist_eq_map :
    ∀ (m : List (String × String)) (syms : List String),
      candidatesWatchlist m syms = syms.map (fun sym => (masterResolve m sym).getD sym) := by
  intro m syms
  induction syms with
  | nil => rfl
  | cons s rest ih =>
    cases h : masterResolve m s with
    | none => simp [candidatesWatchlist, h, ih]
    | some t => simp [candidatesWatchlist, h, ih]

/-- C8: the watchlist candidates list has the same length as the input and
preserves its order, each symbol replaced by the Instrument Master token
under the upper-cased key when resolved and kept verbatim otherwise; with a
missing CSV (empty map) every symbol passes through verbatim; and every
resolved token comes from a CSV row as
"{lowercased exchange}_cm|{nse_scrip_code}". -/
theorem candidates_watchlist_spec :
    (∀ (m : List (String × String)) (syms : List String),
      candidatesWatchlist m syms = syms.map (fun sym => (masterResolve m sym).getD sym) ∧
      (candidatesWatchlist m syms).length = syms.length) ∧
    (∀ syms : List String, candidatesWatchlist [] syms = syms) ∧
    (∀ (rows : List InstrumentRow) (sym tok : String),
      masterResolve (loadSymbolMap rows []) sym = some tok →
      ∃ r ∈ rows, pyUpper r.symbol = pyUpper sym ∧
        tok = pyLower r.exchange ++ "_cm|" ++ r.nse_scrip_code) := by
  refine ⟨?_, ?_, ?_⟩
  · intro m syms
    refine ⟨candidatesWatchlist_eq_map m syms, ?_⟩
    rw [candidatesWatchlist_eq_map m syms, List.length_map]
  · intro syms
    rw [candidatesWatchlist_eq_map]
    have : ∀ sym : String, masterResolve [] sym = none := fun _ => rfl
    simp [this]
  · intro rows sym tok h
    unfold masterResolve at h
    rcases loadSymbolMap_provenance rows [] (pyUpper sym) tok h with hl | ⟨r, hr, h1, h2⟩
    · simp [dictGet] at hl
    · exact ⟨r, hr, h1, h2⟩

/-- Witness for C8: a CSV row for Reliance resolving the lower-case query
"reliance". -/
theorem candidates_watchlist_spec_witness :
    ∃ r ∈ [InstrumentRow.mk "Reliance" "NSE" "2885"],
      pyUpper r.symbol = pyUpper "reliance" ∧
        "nse_cm|2885" = pyLower r.exchange ++ "_cm|" ++ r.nse_scrip_code :=
  candidates_watchlist_spec.2.2 [InstrumentRow.mk "Reliance" "NSE" "2885"]
    "reliance" "nse_cm|2885" (by decide)

/-! ## C9 -/

theorem ratFloor_eq_intFloor (q : ℚ) : q.floor = ⌊q⌋ :=
  (Rat.floor_def' q).trans Rat.floor_def.symm

theorem rhe_close (q : ℚ) : q - 1/2 ≤ (rhe q : ℚ) ∧ (rhe q : ℚ) ≤ q + 1/2 := by
  have hden : (0 : ℚ) < (q.den : ℚ) := by exact_mod_cast q.den_pos
  have hnum : q * (q.den : ℚ) = (q.num : ℚ) := by
    have h := Rat.num_div_den q
    rw [div_eq_iff (ne_of_gt hden)] at h
    exact h.symm
  have hf1 : ((⌊q⌋ : ℤ) : ℚ) ≤ q := Int.floor_le q
  have hf2 : q < (⌊q⌋ : ℚ) + 1 := Int.lt_floor_add_one q
  have hkey : ((q.num - ⌊q⌋ * (q.den : ℤ) : ℤ) : ℚ) = (q - ⌊q⌋) * q.den := by
    push_cast
    rw [sub_mul, hnum]
  have hform : rhe q =
      if 2 * (q.num - ⌊q⌋ * (q.den : ℤ)) < (q.den : ℤ) then ⌊q⌋
      else if (q.den : ℤ) < 2 * (q.num - ⌊q⌋ * (q.den : ℤ)) then ⌊q⌋ + 1
      else if ⌊q⌋ % 2 = 0 then ⌊q⌋ else ⌊q⌋ + 1 := by
    unfold rhe
    rw [ratFloor_eq_intFloor]
  rw [hform]
  split_ifs with h1 h2 h3
  · have hq : 2 * ((q - ⌊q⌋) * q.den) < (q.den : ℚ) := by
      calc 2 * ((q - ⌊q⌋) * q.den) = ((2 * (q.num - ⌊q⌋ * (q.den : ℤ)) : ℤ) : ℚ) := by
            push_cast [hkey]; ring
        _ < (q.den : ℚ) := by exact_mod_cast h1
    have hlt : 2 * (q - ⌊q⌋) < 1 := by nlinarith
    constructor <;> push_cast <;> linarith
  · have hq : (q.den : ℚ) < 2 * ((q - ⌊q⌋) * q.den) := by
      calc (q.den : ℚ) < ((2 * (q.num - ⌊q⌋ * (q.den : ℤ)) : ℤ) : ℚ) := by exact_mod_cast h2
        _ = 2 * ((q - ⌊q⌋) * q.den) := by push_cast [hkey]; ring
    have hgt : 1 < 2 * (q - ⌊q⌋) := by nlinarith
    constructor <;> push_cast <;> linarith
  · have hq : 2 * ((q - ⌊q⌋) * q.den) = (q.den : ℚ) := by
      have he : (2 * (q.num - ⌊q⌋ * (q.den : ℤ)) : ℤ) = (q.den : ℤ) := le_antisymm (not_lt.mp h2) (not_lt.mp h1)
      calc 2 * ((q - ⌊q⌋) * q.den) = ((2 * (q.num - ⌊q⌋ * (q.den : ℤ)) : ℤ) : ℚ) := by
            push_cast [hkey]; ring
        _ = (q.den : ℚ) := by exact_mod_cast he
    have heq : 2 * (q - ⌊q⌋) = 1 := by
      have h2d : (2 * (q - ⌊q⌋)) * q.den = 1 * q.den := by nlinarith
      exact mul_right_cancel₀ (ne_of_gt hden) h2d
    constructor <;> push_cast <;> linarith
  · have hq : 2 * ((q - ⌊q⌋) * q.den) = (q.den : ℚ) := by
      have he : (2 * (q.num - ⌊q⌋ * (q.den : ℤ)) : ℤ) = (q.den : ℤ) := le_antisymm (not_lt.mp h2) (not_lt.mp h1)
      calc 2 * ((q - ⌊q⌋) * q.den) = ((2 * (q.num - ⌊q⌋ * (q.den : ℤ)) : ℤ) : ℚ) := by
            push_cast [hkey]; ring
        _ = (q.den : ℚ) := by exact_mod_cast he
    have heq : 2 * (q - ⌊q⌋) = 1 := by
      have h2d : (2 * (q - ⌊q⌋)) * q.den = 1 * q.den := by nlinarith
      exact mul_right_cancel₀ (ne_of_gt hden) h2d
    constructor <;> push_cast <;> linarith

theorem pyRound4_close (x : ℚ) :
    x - mkRat 1 20000 ≤ pyRound4 x ∧ pyRound4 x ≤ x + mkRat 1 20000 := by
  have hmk : (mkRat 1 20000 : ℚ) = 1 / 20000 := by
    rw [Rat.mkRat_eq_divInt, Rat.divInt_eq_div]
    norm_num
  obtain ⟨h1, h2⟩ := rhe_close (x * 10000)
  unfold pyRound4
  rw [Rat.divInt_eq_div, hmk]
  have h10 : ((10000 : ℤ) : ℚ) = 10000 := by norm_num
  rw [h10]
  constructor
  · rw [le_div_iff₀ (by norm_num : (0:ℚ) < 10000)]
    linarith
  · rw [div_le_iff₀ (by norm_num : (0:ℚ) < 10000)]
    linarith

theorem pyClamp_bounds (lo hi x : ℚ) (h : lo ≤ hi) :
    lo ≤ pyMax lo (pyMin hi x) ∧ pyMax lo (pyMin hi x) ≤ hi := by
  unfold pyMax pyMin
  split_ifs <;> constructor <;> linarith

theorem mockTickFor_price_bound {R : Type} (impl : RNGImpl R) (params : MockParams)
    (sym : String) (ts : ℤ) (st : MockRunState R) (hdev : 0 ≤ params.max_deviation) :
    params.base_price - params.max_deviation - mkRat 1 20000 ≤
      (mockTickFor impl params sym ts st).1.price ∧
    (mockTickFor impl params sym ts st).1.price ≤
      params.base_price + params.max_deviation + mkRat 1 20000 := by
  have hlohi : params.base_price - params.max_deviation ≤
      params.base_price + params.max_deviation := by linarith
  obtain ⟨hc1, hc2⟩ := pyClamp_bounds (params.base_price - params.max_deviation)
    (params.base_price + params.max_deviation)
    ((dictGet st.prices sym).getD params.base_price +
      (impl.uniform st.rng (-params.volatility) params.volatility).1 +
      (params.base_price - (dictGet st.prices sym).getD params.base_price) * params.mean_reversion)
    hlohi
  obtain ⟨hr1, hr2⟩ := pyRound4_close (pyMax (params.base_price - params.max_deviation)
    (pyMin (params.base_price + params.max_deviation)
      ((dictGet st.prices sym).getD params.base_price +
        (impl.uniform st.rng (-params.volatility) params.volatility).1 +
        (params.base_price - (dictGet st.prices sym).getD params.base_price) * params.mean_reversion)))
  constructor
  · show params.base_price - params.max_deviation - mkRat 1 20000 ≤ pyRound4 _
    linarith
  · show pyRound4 _ ≤ params.base_price + params.max_deviation + mkRat 1 20000
    linarith

theorem mockTickFor_symbol {R : Type} (impl : RNGImpl R) (params : MockParams)
    (sym : String) (ts : ℤ) (st : MockRunState R) :
    (mockTickFor impl params sym ts st).1.symbol = sym := rfl

theorem mockEmitSyms_symbols {R : Type} (impl : RNGImpl R) (params : MockParams)
    (clock : ℕ → ℤ) :
    ∀ (syms : List String) (st : MockRunState R),
      (mockEmitSyms impl params clock syms st).1.map Tick.symbol = syms := by
  intro syms
  induction syms with
  | nil => intro st; rfl
  | cons s rest ih =>
    intro st
    show ((mockTickFor impl params s (clock st.count) st).1 ::
      (mockEmitSyms impl params clock rest _).1).map Tick.symbol = s :: rest
    rw [List.map_cons, mockTickFor_symbol, ih]

theorem mockEmitSyms_price_bound {R : Type} (impl : RNGImpl R) (params : MockParams)
    (clock : ℕ → ℤ) (hdev : 0 ≤ params.max_deviation) :
    ∀ (syms : List String) (st : MockRunState R),
      ∀ t ∈ (mockEmitSyms impl params clock syms st).1,
        params.base_price - params.max_deviation - mkRat 1 20000 ≤ t.price ∧
        t.price ≤ params.base_price + params.max_deviation + mkRat 1 20000 := by
  intro syms
  induction syms with
  | nil => intro st t ht; simp [mockEmitSyms] at ht
  | cons s rest ih =>
    intro st t ht
    have ht' : t = (mockTickFor impl params s (clock st.count) st).1 ∨
        t ∈ (mockEmitSyms impl params clock rest
          (mockTickFor impl params s (clock st.count) st).2).1 := by
      simpa [mockEmitSyms] using ht
    rcases ht' with rfl | hmem
    · exact mockTickFor_price_bound impl params s (clock st.count) st hdev
    · exact ih _ t hmem

theorem mockIntervals_symbols {R : Type} (impl : RNGImpl R) (params : MockParams)
    (clock : ℕ → ℤ) (subs : List String) :
    ∀ (k : ℕ) (st : MockRunState R),
      ∀ ticks ∈ (mockIntervals impl params clock subs k st).1,
        ticks.map Tick.symbol = pySorted subs := by
  intro k
  induction k with
  | zero => intro st ticks h; simp [mockIntervals] at h
  | succ n ih =>
    intro st ticks h
    have h' : ticks = (mockEmitSyms impl params clock (pySorted subs) st).1 ∨
        ticks ∈ (mockIntervals impl params clock subs n
          (mockEmitSyms impl params clock (pySorted subs) st).2).1 := by
      simpa [mockIntervals] using h
    rcases h' with rfl | hmem
    · exact mockEmitSyms_symbols impl params clock (pySorted subs) st
    · exact ih _ ticks hmem

theorem mockIntervals_price_bound {R : Type} (impl : RNGImpl R) (params : MockParams)
    (clock : ℕ → ℤ) (subs : List String) (hdev : 0 ≤ params.max_deviation) :
    ∀ (k : ℕ) (st : MockRunState R),
      ∀ ticks ∈ (mockIntervals impl params clock subs k st).1, ∀ t ∈ ticks,
        params.base_price - params.max_deviation - mkRat 1 20000 ≤ t.price ∧
        t.price ≤ params.base_price + params.max_deviation + mkRat 1 20000 := by
  intro k
  induction k with
  | zero => intro st ticks h; simp [mockIntervals] at h
  | succ n ih =>
    intro st ticks h
    have h' : ticks = (mockEmitSyms impl params clock (pySorted subs) st).1 ∨
        ticks ∈ (mockIntervals impl params clock subs n
          (mockEmitSyms impl params clock (pySorted subs) st).2).1 := by
      simpa [mockIntervals] using h
    rcases h' with rfl | hmem
    · exact mockEmitSyms_price_bound impl params clock hdev (pySorted subs) st
    · exact ih _ ticks hmem

/-- C9 counterexample: with base_price = 100, max_deviation = 3/50000 and a
first step hitting the ceiling, the emitted price round(100.00006, 4) =
100.0001 exceeds base_price + max_deviation, so tick prices do not always
lie within [base - max_deviation, base + max_deviation]: the final
round(_, 4) can overshoot the clamp bound by up to half of 10^-4. -/
theorem mock_price_in_range_counterexample :
    ¬ (∀ ticks ∈ mockStream cexRNG (mockInit cexRNG cexParams 0 ["S"]) (fun _ => 0) 1,
        ∀ t ∈ ticks, cexParams.base_price - cexParams.max_deviation ≤ t.price ∧
          t.price ≤ cexParams.base_price + cexParams.max_deviation) := by
  decide

/-- C9 (amended): the mock stream is a deterministic function of the RNG
implementation, constructor parameters, seed, symbols, interval count and
clock (so two providers with equal seeds and inputs produce identical tick
sequences, every field included); each interval visits the subscribed
symbols in sorted order, one tick per symbol; and every emitted price lies
within [base - max_deviation, base + max_deviation] widened by 1/20000 (the
pre-rounding clamped price lies within the exact bounds; rounding to 4
decimal places can move it by at most half of 10^-4). -/
theorem mock_stream_deterministic_sorted_bounded :
    (∀ (R : Type) (impl : RNGImpl R) (p1 p2 : MockParams) (s1 s2 : ℤ)
        (sym1 sym2 : List String) (c1 c2 : ℕ → ℤ) (k1 k2 : ℕ),
      p1 = p2 → s1 = s2 → sym1 = sym2 → c1 = c2 → k1 = k2 →
      mockStream impl (mockInit impl p1 s1 sym1) c1 k1 =
        mockStream impl (mockInit impl p2 s2 sym2) c2 k2) ∧
    (∀ (R : Type) (impl : RNGImpl R) (st : MockProviderState R) (clock : ℕ → ℤ) (k : ℕ),
      ∀ ticks ∈ mockStream impl st clock k, ticks.map Tick.symbol = pySorted st.subscriptions) ∧
    (∀ (R : Type) (impl : RNGImpl R) (st : MockProviderState R) (clock : ℕ → ℤ) (k : ℕ),
      0 ≤ st.params.max_deviation →
      ∀ ticks ∈ mockStream impl st clock k, ∀ t ∈ ticks,
        st.params.base_price - st.params.max_deviation - mkRat 1 20000 ≤ t.price ∧
        t.price ≤ st.params.base_price + st.params.max_deviation + mkRat 1 20000) := by
  refine ⟨?_, ?_, ?_⟩
  · intro R impl p1 p2 s1 s2 sym1 sym2 c1 c2 k1 k2 hp hs hsym hc hk
    subst hp; subst hs; subst hsym; subst hc; subst hk
    rfl
  · intro R impl st clock k ticks h
    exact mockIntervals_symbols impl st.params clock st.subscriptions k _ ticks h
  · intro R impl st clock k hdev ticks h t ht
    exact mockIntervals_price_bound impl st.params clock st.subscriptions hdev k _ ticks h t ht

/-- Witness for C9 (amended) on the concrete mock instance with two
symbols, one interval. -/
theorem mock_stream_deterministic_sorted_bounded_witness :
    (mockStream cexRNG (mockInit cexRNG cexParams 0 ["B", "A"]) (fun _ => 0) 1 =
      mockStream cexRNG (mockInit cexRNG cexParams 0 ["B", "A"]) (fun _ => 0) 1) ∧
    ((mockStream cexRNG (mockInit cexRNG cexParams 0 ["B", "A"]) (fun _ => 0) 1).head?.getD []).map
        Tick.symbol = pySorted ["B", "A"] ∧
    (cexParams.base_price - cexParams.max_deviation - mkRat 1 20000 ≤
      (((mockStream cexRNG (mockInit cexRNG cexParams 0 ["B", "A"]) (fun _ => 0) 1).head?.getD
        []).head?.getD (Tick.mk "" 0 0 0 "")).price) := by
  refine ⟨?_, ?_, ?_⟩
  · exact mock_stream_deterministic_sorted_bounded.1 Unit cexRNG cexParams cexParams 0 0
      ["B", "A"] ["B", "A"] (fun _ => 0) (fun _ => 0) 1 1 rfl rfl rfl rfl rfl
  · have h := mock_stream_deterministic_sorted_bounded.2.1 Unit cexRNG
      (mockInit cexRNG cexParams 0 ["B", "A"]) (fun _ => 0) 1
      ((mockStream cexRNG (mockInit cexRNG cexParams 0 ["B", "A"]) (fun _ => 0) 1).head?.getD [])
      (by decide)
    exact h
  · have h := mock_stream_deterministic_sorted_bounded.2.2 Unit cexRNG
      (mockInit cexRNG cexParams 0 ["B", "A"]) (fun _ => 0) 1 (by decide)
      ((mockStream cexRNG (mockInit cexRNG cexParams 0 ["B", "A"]) (fun _ => 0) 1).head?.getD [])
      (by decide)
      (((mockStream cexRNG (mockInit cexRNG cexParams 0 ["B", "A"]) (fun _ => 0) 1).head?.getD
        []).head?.getD (Tick.mk "" 0 0 0 ""))
      (by decide)
    exact h.1

/-! ## Character and string lemmas for interval normalization -/

theorem char_toNat_ofNat_valid (n : Nat) (h : n.isValidChar) : (Char.ofNat n).toNat = n := by
  simp only [Char.ofNat, h, dite_true, Char.ofNatAux, Char.toNat, UInt32.toNat]
  simp [BitVec.toNat_ofNatLt]

theorem toLower_of_upper (c : Char) (h : 65 ≤ c.toNat ∧ c.toNat ≤ 90) :
    c.toLower = Char.ofNat (c.toNat + 32) := by
  unfold Char.toLower
  show (if c.toNat ≥ 65 ∧ c.toNat ≤ 90 then Char.ofNat (c.toNat + 32) else c) = _
  rw [if_pos h]

theorem toLower_of_not_upper (c : Char) (h : ¬(65 ≤ c.toNat ∧ c.toNat ≤ 90)) :
    c.toLower = c := by
  unfold Char.toLower
  show (if c.toNat ≥ 65 ∧ c.toNat ≤ 90 then Char.ofNat (c.toNat + 32) else c) = c
  rw [if_neg h]

theorem toNat_toLower_of_upper (c : Char) (h : 65 ≤ c.toNat ∧ c.toNat ≤ 90) :
    c.toLower.toNat = c.toNat + 32 := by
  rw [toLower_of_upper c h]
  exact char_toNat_ofNat_valid _ (Or.inl (by omega))

theorem toLower_idem (c : Char) : c.toLower.toLower = c.toLower := by
  by_cases h : 65 ≤ c.toNat ∧ c.toNat ≤ 90
  · have h2 := toNat_toLower_of_upper c h
    exact toLower_of_not_upper _ (by omega)
  · rw [toLower_of_not_upper c h, toLower_of_not_upper c h]

theorem char_eq_of_toNat_eq {c d : Char} (h : c.toNat = d.toNat) : c = d :=
  Char.eq_of_val_eq (UInt32.eq_of_toBitVec_eq (BitVec.eq_of_toNat_eq h))

theorem isWhitespace_iff (c : Char) :
    c.isWhitespace = true ↔ (c.toNat = 32 ∨ c.toNat = 9 ∨ c.toNat = 13 ∨ c.toNat = 10) := by
  constructor
  · intro h
    simp only [Char.isWhitespace, Bool.or_eq_true, decide_eq_true_eq] at h
    rcases h with ((h | h) | h) | h <;> subst h <;> decide
  · intro h
    simp only [Char.isWhitespace, Bool.or_eq_true, decide_eq_true_eq]
    rcases h with h | h | h | h
    · exact Or.inl (Or.inl (Or.inl (char_eq_of_toNat_eq (by rw [h]; rfl))))
    · exact Or.inl (Or.inl (Or.inr (char_eq_of_toNat_eq (by rw [h]; rfl))))
    · exact Or.inl (Or.inr (char_eq_of_toNat_eq (by rw [h]; rfl)))
    · exact Or.inr (char_eq_of_toNat_eq (by rw [h]; rfl))

theorem toLower_isWhitespace (c : Char) : c.toLower.isWhitespace = c.isWhitespace := by
  by_cases h : 65 ≤ c.toNat ∧ c.toNat ≤ 90
  · have h2 := toNat_toLower_of_upper c h
    have e1 : c.toLower.isWhitespace = false := by
      rw [Bool.eq_false_iff]
      intro hw
      rw [isWhitespace_iff] at hw
      omega
    have e2 : c.isWhitespace = false := by
      rw [Bool.eq_false_iff]
      intro hw
      rw [isWhitespace_iff] at hw
      omega
    rw [e1, e2]
  · rw [toLower_of_not_upper c h]

theorem isDigit_toNat {c : Char} (h : c.isDigit = true) : 48 ≤ c.toNat ∧ c.toNat ≤ 57 := by
  simp only [Char.isDigit, Bool.and_eq_true, decide_eq_true_eq] at h
  exact h

theorem toLower_of_digit {c : Char} (h : c.isDigit = true) : c.toLower = c := by
  have := isDigit_toNat h
  exact toLower_of_not_upper c (by omega)

theorem not_whitespace_of_digit {c : Char} (h : c.isDigit = true) :
    c.isWhitespace = false := by
  have hb := isDigit_toNat h
  rw [Bool.eq_false_iff]
  intro hw
  rw [isWhitespace_iff] at hw
  omega

theorem toLower_eq_slash {c : Char} (h : c.toLower = '/') : c = '/' := by
  by_cases hu : 65 ≤ c.toNat ∧ c.toNat ≤ 90
  · have h2 := toNat_toLower_of_upper c hu
    have : c.toLower.toNat = 47 := by rw [h]; rfl
    omega
  · rw [toLower_of_not_upper c hu] at h
    exact h

theorem contains_eq_decide_mem (l : List Char) (c : Char) :
    l.contains c = decide (c ∈ l) :=
  List.elem_eq_mem c l

theorem dropWhileWs_idem (l : List Char) :
    (l.dropWhile Char.isWhitespace).dropWhile Char.isWhitespace =
      l.dropWhile Char.isWhitespace := by
  induction l with
  | nil => rfl
  | cons a t ih =>
    by_cases h : a.isWhitespace
    · rw [List.dropWhile_cons_of_pos h, ih]
    · rw [List.dropWhile_cons_of_neg h, List.dropWhile_cons_of_neg h]

theorem trimLeftWs_idem (l : List Char) : trimLeftWs (trimLeftWs l) = trimLeftWs l :=
  dropWhileWs_idem l

theorem trimRightWs_idem (l : List Char) : trimRightWs (trimRightWs l) = trimRightWs l := by
  unfold trimRightWs
  rw [List.reverse_reverse, dropWhileWs_idem]

theorem trimRightWs_cons_of_neg {a : Char} (t : List Char) (h : a.isWhitespace = false) :
    trimRightWs (a :: t) = a :: trimRightWs t := by
  unfold trimRightWs
  rw [List.reverse_cons, List.dropWhile_append]
  cases he : (t.reverse.dropWhile Char.isWhitespace).isEmpty with
  | true =>
    rw [if_pos rfl]
    rw [List.isEmpty_iff] at he
    rw [he, List.dropWhile_cons_of_neg (by rw [h]; exact Bool.false_ne_true)]
    rfl
  | false =>
    rw [if_neg (by simp [he])]
    rw [List.reverse_append]
    rfl

theorem trimLeftWs_fixed_cons {a : Char} {t : List Char}
    (h : trimLeftWs (a :: t) = a :: t) : a.isWhitespace = false := by
  by_cases hw : a.isWhitespace
  · exfalso
    unfold trimLeftWs at h
    rw [List.dropWhile_cons_of_pos hw] at h
    have hlen := (List.dropWhile_sublist (l := t) Char.isWhitespace).length_le
    have : (t.dropWhile Char.isWhitespace).length = t.length + 1 := by rw [h]; rfl
    omega
  · exact Bool.eq_false_iff.mpr hw

theorem trimLeftWs_trimRightWs_of_fixed {u : List Char} (hu : trimLeftWs u = u) :
    trimLeftWs (trimRightWs u) = trimRightWs u := by
  cases u with
  | nil => rfl
  | cons a t =>
    have ha := trimLeftWs_fixed_cons hu
    rw [trimRightWs_cons_of_neg t ha]
    unfold trimLeftWs
    rw [List.dropWhile_cons_of_neg (by rw [ha]; exact Bool.false_ne_true)]

theorem pyStripL_idem (l : List Char) : pyStripL (pyStripL l) = pyStripL l := by
  unfold pyStripL
  rw [trimLeftWs_trimRightWs_of_fixed (trimLeftWs_idem l), trimRightWs_idem]

theorem dropWhileWs_map_toLower (l : List Char) :
    (l.map Char.toLower).dropWhile Char.isWhitespace =
      (l.dropWhile Char.isWhitespace).map Char.toLower := by
  induction l with
  | nil => rfl
  | cons a t ih =>
    rw [List.map_cons]
    by_cases h : a.isWhitespace
    · rw [List.dropWhile_cons_of_pos (by rw [toLower_isWhitespace]; exact h),
        List.dropWhile_cons_of_pos h, ih]
    · rw [List.dropWhile_cons_of_neg (by rw [toLower_isWhitespace]; exact h),
        List.dropWhile_cons_of_neg h, List.map_cons]

theorem pyStripL_pyLowerL_comm (l : List Char) :
    pyStripL (pyLowerL l) = pyLowerL (pyStripL l) := by
  unfold pyStripL pyLowerL trimLeftWs trimRightWs
  rw [dropWhileWs_map_toLower, ← List.map_reverse, dropWhileWs_map_toLower, ← List.map_reverse]

theorem pyLowerL_idem (l : List Char) : pyLowerL (pyLowerL l) = pyLowerL l := by
  unfold pyLowerL
  rw [List.map_map]
  exact List.map_congr_left (fun c _ => toLower_idem c)

theorem cleanL_idem (s : List Char) : cleanL (cleanL s) = cleanL s := by
  unfold cleanL
  rw [pyStripL_pyLowerL_comm, pyStripL_idem, pyLowerL_idem]

theorem trimLeftWs_of_forall {l : List Char} (h : ∀ c ∈ l, c.isWhitespace = false) :
    trimLeftWs l = l := by
  cases l with
  | nil => rfl
  | cons a t =>
    unfold trimLeftWs
    rw [List.dropWhile_cons_of_neg (by rw [h a (List.mem_cons_self a t)]; exact Bool.false_ne_true)]

theorem pyStripL_of_forall {l : List Char} (h : ∀ c ∈ l, c.isWhitespace = false) :
    pyStripL l = l := by
  unfold pyStripL
  rw [trimLeftWs_of_forall h]
  unfold trimRightWs
  have h2 : List.dropWhile Char.isWhitespace l.reverse = l.reverse :=
    trimLeftWs_of_forall (fun c hc => h c (List.mem_reverse.mp hc))
  rw [h2, List.reverse_reverse]

theorem pyLowerL_of_forall {l : List Char} (h : ∀ c ∈ l, c.toLower = c) :
    pyLowerL l = l := by
  unfold pyLowerL
  conv_rhs => rw [← List.map_id l]
  exact List.map_congr_left (fun c hc => h c hc)

theorem cleanL_of_forall {l : List Char}
    (h : ∀ c ∈ l, c.isWhitespace = false ∧ c.toLower = c) : cleanL l = l := by
  unfold cleanL
  rw [pyStripL_of_forall (fun c hc => (h c hc).1), pyLowerL_of_forall (fun c hc => (h c hc).2)]

theorem mem_pyStripL {c : Char} {l : List Char} (h : c ∈ pyStripL l) : c ∈ l := by
  unfold pyStripL trimLeftWs trimRightWs at h
  rw [List.mem_reverse] at h
  have h2 := (List.dropWhile_sublist Char.isWhitespace).mem h
  rw [List.mem_reverse] at h2
  exact (List.dropWhile_sublist Char.isWhitespace).mem h2

theorem slash_not_mem_cleanL {l : List Char} (h : ¬ '/' ∈ l) : ¬ '/' ∈ cleanL l := by
  intro hc
  unfold cleanL pyLowerL at hc
  rw [List.mem_map] at hc
  obtain ⟨c, hcmem, hceq⟩ := hc
  have : c = '/' := toLower_eq_slash hceq
  subst this
  exact h (mem_pyStripL hcmem)

/-! ## C6 -/

theorem formatIntervalL_of_simple {s : List Char} (h1 : ¬ s = []) (h2 : ¬ '/' ∈ s) :
    formatIntervalL s = some (formatSimpleL s) := by
  unfold formatIntervalL
  rw [if_neg h1, contains_eq_decide_mem]
  rw [if_neg (by simp [h2])]

theorem cleanL_digits_append {d : List Char} (hdig : d.all Char.isDigit = true) {c : Char}
    (hcw : c.isWhitespace = false) (hcl : c.toLower = c) : cleanL (d ++ [c]) = d ++ [c] := by
  apply cleanL_of_forall
  intro x hx
  rcases List.mem_append.mp hx with hxd | hxc
  · have hxdig := List.all_eq_true.mp hdig x hxd
    exact ⟨not_whitespace_of_digit hxdig, toLower_of_digit hxdig⟩
  · rw [List.mem_singleton] at hxc
    subst hxc
    exact ⟨hcw, hcl⟩

theorem digits_no_slash {d : List Char} (hdig : d.all Char.isDigit = true) : ¬ '/' ∈ d := by
  intro hmem
  have hb := isDigit_toNat (List.all_eq_true.mp hdig '/' hmem)
  have h47 : '/'.toNat = 47 := rfl
  omega

theorem pyIsdigitL_true {d : List Char} (hne : ¬ d = []) (hdig : d.all Char.isDigit = true) :
    pyIsdigitL d = true := by
  unfold pyIsdigitL
  rw [hdig]
  simp [List.isEmpty_iff, hne]

theorem formatSimpleL_suffix_m {d : List Char} (hne : ¬ d = [])
    (hdig : d.all Char.isDigit = true) :
    formatSimpleL (d ++ ['m']) = d ++ "minute".data := by
  have hclean : cleanL (d ++ ['m']) = d ++ ['m'] :=
    cleanL_digits_append hdig (by decide) (by decide)
  unfold formatSimpleL
  rw [hclean]
  have hlast : (d ++ ['m']).getLast? = some 'm' := by rw [List.getLast?_append]; rfl
  have hdrop : (d ++ ['m']).dropLast = d := List.dropLast_concat
  have hcond : (pyEndsWith (d ++ ['m']) 'm' && pyIsdigitL (d ++ ['m']).dropLast) = true := by
    unfold pyEndsWith
    rw [hlast, hdrop, pyIsdigitL_true hne hdig]
    simp
  rw [if_pos hcond, hdrop]

theorem formatSimpleL_suffix_h {d : List Char} (hne : ¬ d = [])
    (hdig : d.all Char.isDigit = true) :
    formatSimpleL (d ++ ['h']) = d ++ "hour".data := by
  have hclean : cleanL (d ++ ['h']) = d ++ ['h'] :=
    cleanL_digits_append hdig (by decide) (by decide)
  unfold formatSimpleL
  rw [hclean]
  have hlast : (d ++ ['h']).getLast? = some 'h' := by rw [List.getLast?_append]; rfl
  have hdrop : (d ++ ['h']).dropLast = d := List.dropLast_concat
  have hc1 : (pyEndsWith (d ++ ['h']) 'm' && pyIsdigitL (d ++ ['h']).dropLast) = false := by
    unfold pyEndsWith
    rw [hlast]
    simp
  have hc2 : (pyEndsWith (d ++ ['h']) 'h' && pyIsdigitL (d ++ ['h']).dropLast) = true := by
    unfold pyEndsWith
    rw [hlast, hdrop, pyIsdigitL_true hne hdig]
    simp
  rw [if_neg (by rw [hc1]; exact Bool.false_ne_true), if_pos hc2, hdrop]

theorem formatSimpleL_suffix_d {d : List Char} (hne : ¬ d = [])
    (hdig : d.all Char.isDigit = true) :
    formatSimpleL (d ++ ['d']) = if d = ['1'] then "day".data else d ++ "day".data := by
  have hclean : cleanL (d ++ ['d']) = d ++ ['d'] :=
    cleanL_digits_append hdig (by decide) (by decide)
  unfold formatSimpleL
  rw [hclean]
  have hlast : (d ++ ['d']).getLast? = some 'd' := by rw [List.getLast?_append]; rfl
  have hdrop : (d ++ ['d']).dropLast = d := List.dropLast_concat
  have hc1 : (pyEndsWith (d ++ ['d']) 'm' && pyIsdigitL (d ++ ['d']).dropLast) = false := by
    unfold pyEndsWith
    rw [hlast]
    simp
  have hc2 : (pyEndsWith (d ++ ['d']) 'h' && pyIsdigitL (d ++ ['d']).dropLast) = false := by
    unfold pyEndsWith
    rw [hlast]
    simp
  have hc3 : (pyEndsWith (d ++ ['d']) 'd' && pyIsdigitL (d ++ ['d']).dropLast) = true := by
    unfold pyEndsWith
    rw [hlast, hdrop, pyIsdigitL_true hne hdig]
    simp
  rw [if_neg (by rw [hc1]; exact Bool.false_ne_true),
    if_neg (by rw [hc2]; exact Bool.false_ne_true), if_pos hc3, hdrop]

theorem takeWhile_append_slash (pre post : List Char) (h : ¬ '/' ∈ pre) :
    (pre ++ '/' :: post).takeWhile (fun c => !(c = '/' : Bool)) = pre := by
  induction pre with
  | nil => simp [List.takeWhile_cons]
  | cons a t ih =>
    have ha : ¬ a = '/' := fun e => h (e ▸ List.mem_cons_self a t)
    have ht : ¬ '/' ∈ t := fun e => h (List.mem_cons_of_mem a e)
    rw [List.cons_append, List.takeWhile_cons]
    simp [ha, ih ht]

theorem dropWhile_append_slash (pre post : List Char) (h : ¬ '/' ∈ pre) :
    (pre ++ '/' :: post).dropWhile (fun c => !(c = '/' : Bool)) = '/' :: post := by
  induction pre with
  | nil => simp [List.dropWhile_cons]
  | cons a t ih =>
    have ha : ¬ a = '/' := fun e => h (e ▸ List.mem_cons_self a t)
    have ht : ¬ '/' ∈ t := fun e => h (List.mem_cons_of_mem a e)
    rw [List.cons_append, List.dropWhile_cons]
    simp [ha, ih ht]

theorem pyIsdigitL_ne_nil {d : List Char} (h : pyIsdigitL d = true) : ¬ d = [] := by
  intro he
  subst he
  simp [pyIsdigitL] at h

theorem pyIsdigitL_all {d : List Char} (h : pyIsdigitL d = true) :
    d.all Char.isDigit = true := by
  unfold pyIsdigitL at h
  simp only [Bool.and_eq_true] at h
  exact h.2

theorem formatIntervalL_compound (u0 : Char) (us mult : List Char)
    (hu_ns : ¬ '/' ∈ (u0 :: us))
    (hu_strip : pyStripL (u0 :: us) = u0 :: us)
    (hu_lower : pyLowerL (u0 :: us) = u0 :: us)
    (hmdig : pyIsdigitL mult = true) :
    formatIntervalL ((u0 :: us) ++ '/' :: mult) = formatIntervalL (mult ++ [u0]) := by
  have hmne := pyIsdigitL_ne_nil hmdig
  have hmall := pyIsdigitL_all hmdig
  have hmstrip : pyStripL mult = mult :=
    pyStripL_of_forall (fun c hc => not_whitespace_of_digit (List.all_eq_true.mp hmall c hc))
  have harg_ns : ¬ '/' ∈ (mult ++ [u0]) := by
    intro hmem
    rcases List.mem_append.mp hmem with hm | hm
    · exact digits_no_slash hmall hm
    · rw [List.mem_singleton] at hm
      exact hu_ns (hm ▸ List.mem_cons_self u0 us)
  have harg_ne : ¬ (mult ++ [u0]) = [] := by simp
  rw [formatIntervalL_of_simple harg_ne harg_ns]
  unfold formatIntervalL
  rw [if_neg (by simp), contains_eq_decide_mem]
  rw [if_pos (by simp [List.mem_append])]
  rw [takeWhile_append_slash _ _ hu_ns, dropWhile_append_slash _ _ hu_ns]
  simp only [List.drop_succ_cons, List.drop_zero]
  rw [hu_strip, hu_lower, hmstrip, if_pos hmdig]

/-- C6: _format_interval matches the normalization table: empty (or None)
gives "1minute"; digit strings N give "Nm" to "Nminute", "Nh" to "Nhour",
"1d" to "day" and "Nd" (N not the string "1") to "Nday"; "day", "week" and
"month" pass through; and a compound "unit/N" (unit free of "/", already
trimmed and lower-case, N digits) normalizes like "N" followed by the
unit's first character, so "2m" gives "2minute", "1d" gives "day", "3d"
gives "3day" and "minutes/5" gives "5minute". -/
theorem format_interval_table :
    (formatInterval "" = some "1minute") ∧
    (∀ d : List Char, ¬ d = [] → d.all Char.isDigit = true →
      formatIntervalL (d ++ ['m']) = some (d ++ "minute".data)) ∧
    (∀ d : List Char, ¬ d = [] → d.all Char.isDigit = true →
      formatIntervalL (d ++ ['h']) = some (d ++ "hour".data)) ∧
    (∀ d : List Char, ¬ d = [] → d.all Char.isDigit = true →
      formatIntervalL (d ++ ['d']) =
        some (if d = ['1'] then "day".data else d ++ "day".data)) ∧
    (formatInterval "day" = some "day") ∧
    (formatInterval "week" = some "week") ∧
    (formatInterval "month" = some "month") ∧
    (∀ (u0 : Char) (us mult : List Char), ¬ '/' ∈ (u0 :: us) →
      pyStripL (u0 :: us) = u0 :: us → pyLowerL (u0 :: us) = u0 :: us →
      pyIsdigitL mult = true →
      formatIntervalL ((u0 :: us) ++ '/' :: mult) = formatIntervalL (mult ++ [u0])) ∧
    (formatInterval "2m" = some "2minute") ∧
    (formatInterval "1d" = some "day") ∧
    (formatInterval "3d" = some "3day") ∧
    (formatInterval "minutes/5" = some "5minute") := by
  refine ⟨by decide, ?_, ?_, ?_, by decide, by decide, by decide,
    formatIntervalL_compound, by decide, by decide, by decide, by decide⟩
  · intro d hne hdig
    have hns : ¬ '/' ∈ (d ++ ['m']) := by
      intro hmem
      rcases List.mem_append.mp hmem with hm | hm
      · exact digits_no_slash hdig hm
      · simp at hm
    rw [formatIntervalL_of_simple (by simp) hns, formatSimpleL_suffix_m hne hdig]
  · intro d hne hdig
    have hns : ¬ '/' ∈ (d ++ ['h']) := by
      intro hmem
      rcases List.mem_append.mp hmem with hm | hm
      · exact digits_no_slash hdig hm
      · simp at hm
    rw [formatIntervalL_of_simple (by simp) hns, formatSimpleL_suffix_h hne hdig]
  · intro d hne hdig
    have hns : ¬ '/' ∈ (d ++ ['d']) := by
      intro hmem
      rcases List.mem_append.mp hmem with hm | hm
      · exact digits_no_slash hdig hm
      · simp at hm
    rw [formatIntervalL_of_simple (by simp) hns, formatSimpleL_suffix_d hne hdig]

/-- Witness for C6 at N = "2" and unit "minutes", multiplier "5". -/
theorem format_interval_table_witness :
    formatIntervalL (['2'] ++ ['m']) = some (['2'] ++ "minute".data) ∧
    formatIntervalL (('m' :: "inutes".data) ++ '/' :: ['5']) =
      formatIntervalL (['5'] ++ ['m']) :=
  ⟨format_interval_table.2.1 ['2'] (by decide) (by decide),
   format_interval_table.2.2.2.2.2.2.2.1 'm' "inutes".data ['5']
     (by decide) (by decide) (by decide) (by decide)⟩

/-! ## C10 -/

theorem formatIntervalL_fixed_of {r : List Char} (hne : ¬ r = []) (hns : ¬ '/' ∈ r)
    (hclean : cleanL r = r)
    (h1 : (pyEndsWith r 'm' && pyIsdigitL r.dropLast) = false)
    (h2 : (pyEndsWith r 'h' && pyIsdigitL r.dropLast) = false)
    (h3 : (pyEndsWith r 'd' && pyIsdigitL r.dropLast) = false) :
    formatIntervalL r = some r := by
  rw [formatIntervalL_of_simple hne hns]
  unfold formatSimpleL
  rw [hclean, if_neg (by rw [h1]; exact Bool.false_ne_true),
    if_neg (by rw [h2]; exact Bool.false_ne_true),
    if_neg (by rw [h3]; exact Bool.false_ne_true)]

theorem formatIntervalL_fixed_word (d w : List Char) (hdall : d.all Char.isDigit = true)
    (hw : ∀ c ∈ w, c.isWhitespace = false ∧ c.toLower = c ∧ ¬ c = '/')
    (c : Char) (hc : w.getLast? = some c)
    (hcm : ¬ c = 'm') (hch : ¬ c = 'h') (hcd : ¬ c = 'd') :
    formatIntervalL (d ++ w) = some (d ++ w) := by
  have hwne : ¬ w = [] := by
    intro he
    rw [he] at hc
    simp at hc
  have hlast : (d ++ w).getLast? = some c := by
    rw [List.getLast?_append, hc]
    rfl
  apply formatIntervalL_fixed_of
  · simp [hwne]
  · intro hmem
    rcases List.mem_append.mp hmem with hm | hm
    · exact digits_no_slash hdall hm
    · exact (hw '/' hm).2.2 rfl
  · apply cleanL_of_forall
    intro x hx
    rcases List.mem_append.mp hx with hm | hm
    · have hxdig := List.all_eq_true.mp hdall x hm
      exact ⟨not_whitespace_of_digit hxdig, toLower_of_digit hxdig⟩
    · exact ⟨(hw x hm).1, (hw x hm).2.1⟩
  · have hm : pyEndsWith (d ++ w) 'm' = false := by
      unfold pyEndsWith
      rw [hlast]
      simp [hcm]
    rw [hm]
    rfl
  · have hm : pyEndsWith (d ++ w) 'h' = false := by
      unfold pyEndsWith
      rw [hlast]
      simp [hch]
    rw [hm]
    rfl
  · have hm : pyEndsWith (d ++ w) 'd' = false := by
      unfold pyEndsWith
      rw [hlast]
      simp [hcd]
    rw [hm]
    rfl

theorem formatSimpleL_output_fixed (s : List Char) (hns : ¬ '/' ∈ s)
    (hne : ¬ formatSimpleL s = []) :
    formatIntervalL (formatSimpleL s) = some (formatSimpleL s) := by
  have hvns : ¬ '/' ∈ cleanL s := slash_not_mem_cleanL hns
  have hvclean : cleanL (cleanL s) = cleanL s := cleanL_idem s
  simp only [formatSimpleL] at hne ⊢
  split_ifs at hne ⊢ with h1 h2 h3 h4
  · have h1' := h1
    simp only [Bool.and_eq_true] at h1'
    exact formatIntervalL_fixed_word _ _ (pyIsdigitL_all h1'.2) (by decide) 'e' rfl
      (by decide) (by decide) (by decide)
  · have h2' := h2
    simp only [Bool.and_eq_true] at h2'
    exact formatIntervalL_fixed_word _ _ (pyIsdigitL_all h2'.2) (by decide) 'r' rfl
      (by decide) (by decide) (by decide)
  · decide
  · have h3' := h3
    simp only [Bool.and_eq_true] at h3'
    exact formatIntervalL_fixed_word _ _ (pyIsdigitL_all h3'.2) (by decide) 'y' rfl
      (by decide) (by decide) (by decide)
  · exact formatIntervalL_fixed_of hne hvns hvclean
      (Bool.eq_false_iff.mpr h1) (Bool.eq_false_iff.mpr h2) (Bool.eq_false_iff.mpr h3)

/-- C10 counterexample: _format_interval(" ") returns "" (truthy input,
stripped to empty, no branch matches), but _format_interval("") returns
"1minute", so applying the function to its own output changes it. -/
theorem format_interval_idem_counterexample :
    formatInterval "  " = some "" ∧ ¬ formatInterval "" = some "" := by
  decide

/-- C10 (amended): _format_interval is idempotent on every input whose
result is nonempty: if it returns r and r is not the empty string, a second
application returns r unchanged (whitespace-only inputs are the only
exception: they normalize to "", which a further application turns into
"1minute"). -/
theorem format_interval_idem :
    ∀ (s r : String), formatInterval s = some r → ¬ r = "" →
      formatInterval r = some r := by
  have main : ∀ (s r : List Char), formatIntervalL s = some r → ¬ r = [] →
      formatIntervalL r = some r := by
    intro s r h hne
    by_cases h0 : s = []
    · subst h0
      have hr : "1minute".data = r := Option.some.inj h
      rw [← hr]
      decide
    · by_cases hcs : '/' ∈ s
      · simp only [formatIntervalL] at h
        rw [if_neg h0, contains_eq_decide_mem, if_pos (by simp [hcs])] at h
        by_cases hmd : pyIsdigitL (pyStripL ((s.dropWhile (fun c => !(c = '/' : Bool))).drop 1)) = true
        · rw [if_pos hmd] at h
          cases hu : pyLowerL (pyStripL (s.takeWhile (fun c => !(c = '/' : Bool)))) with
          | nil =>
            rw [hu] at h
            exact absurd h (by simp)
          | cons u0 us =>
            rw [hu] at h
            have hr : formatSimpleL
                (pyStripL ((s.dropWhile (fun c => !(c = '/' : Bool))).drop 1) ++ [u0]) = r :=
              Option.some.inj h
            rw [← hr] at hne ⊢
            apply formatSimpleL_output_fixed
            · intro hmem
              rcases List.mem_append.mp hmem with hm | hm
              · exact digits_no_slash (pyIsdigitL_all hmd) hm
              · rw [List.mem_singleton] at hm
                have hu0 : u0 ∈ pyLowerL (pyStripL (s.takeWhile (fun c => !(c = '/' : Bool)))) := by
                  rw [hu]
                  exact List.mem_cons_self u0 us
                unfold pyLowerL at hu0
                rw [List.mem_map] at hu0
                obtain ⟨c0, hc0mem, hc0eq⟩ := hu0
                have : c0 = '/' := toLower_eq_slash (by rw [hc0eq, ← hm])
                subst this
                have := List.mem_takeWhile_imp (mem_pyStripL hc0mem)
                simp at this
            · exact hne
        · rw [if_neg hmd] at h
          have hr : s = r := Option.some.inj h
          rw [← hr]
          simp only [formatIntervalL]
          rw [if_neg h0, contains_eq_decide_mem, if_pos (by simp [hcs]), if_neg hmd]
      · simp only [formatIntervalL] at h
        rw [if_neg h0, contains_eq_decide_mem, if_neg (by simp [hcs])] at h
        have hr : formatSimpleL s = r := Option.some.inj h
        rw [← hr] at hne ⊢
        exact formatSimpleL_output_fixed s hcs hne
  intro s r h hne
  unfold formatInterval at h ⊢
  cases hl : formatIntervalL s.data with
  | none =>
    rw [hl] at h
    exact Option.noConfusion h
  | some l =>
    rw [hl] at h
    have hr : ({ data := l } : String) = r := Option.some.inj h
    have hlne : ¬ l = [] := by
      intro he
      apply hne
      rw [← hr, he]
    have h2 := main s.data l hl hlne
    rw [← hr]
    show Option.map (fun l => ({ data := l } : String)) (formatIntervalL l) = some { data := l }
    rw [h2]
    rfl

/-- Witness for C10 (amended): "2m" normalizes to "2minute", which is a
fixed point. -/
theorem format_interval_idem_witness :
    formatInterval "2minute" = some "2minute" :=
  format_interval_idem "2m" "2minute" (by decide) (by decide)
